import Mathlib

/-!
Verification of the CALLME fluency-evaluation pipeline.

This file shallowly embeds the oral-fluency scoring pipeline of the
repository (`fluency.py` and its backend copy
`callme-project_integrate_version1/backend/utils/audio/fluency.py`) in Lean 4
and proves/refutes the frozen claims about it.

Modelling conventions:
* Machine floats are modelled as exact rationals (`ℚ`); every numeric literal
  of the source (0.15, 0.7, 1e-6, …) is the corresponding rational.
* External effects (audio file duration, the pyannote VAD detector, the
  faster-whisper recognizer, the prosody analyzer) are modelled by an
  `AudioEnv` record holding the outcome of each external call; an
  `Except.error` outcome means that the external call raised.
* Python strings iterated character-wise are modelled as `List Char`.
* A standard deviation `np.std(xs, ddof=1)` is a square root, which is not
  exactly representable in `ℚ`; it is represented throughout by its square
  (the Bessel-corrected sample variance).  The map `x ↦ x^2` is a strictly
  monotone bijection on the nonnegatives, so every threshold comparison of
  the source is faithfully mirrored on squares (see
  `score_metric_RateSD_sq_bridge`).
-/

/-- A recognized word with timestamps; embeds the `Word` dataclass of
`fluency.py` (text modelled as the list of its characters). -/
structure Word where
  text : List Char
  start : ℚ
  «end» : ℚ
deriving DecidableEq

/-- Outcome of the external collaborators for one audio file: the duration
reported by `sf.info` (`duration_from_path`), the raw speech timeline emitted
by the pyannote detector, the word list of the faster-whisper recognizer and
the prosody analysis result.  An `Except.error` value models the external
call raising an exception. -/
structure AudioEnv where
  total : ℚ
  vad : Except Unit (List (ℚ × ℚ))
  asr : Except Unit (List Word)
  prosody : Except Unit (ℚ × ℚ)

/-- The result dictionary of the backend `process_one` / `evaluate_fluency`.
Keys absent from a given return (the zero-duration branch returns only
`Fluency`, `Level`, `Error`; `Prosody_Score` is `None` without prosody) are
modelled as `Option` fields holding `none`.  `rateSDsq` holds the square of
the reported `RateSD` value (see the file header). -/
structure ScoreResult where
  fluency : ℚ
  level : String
  timingScore : Option ℚ
  prosodyScore : Option ℚ
  nWords : Option ℕ
  duration : Option ℚ
  sr : Option ℚ
  ar : Option ℚ
  pr : Option ℚ
  lpf : Option ℚ
  mlfrVal : Option ℚ
  rateSDsq : Option ℚ
  f0iqr : Option ℚ
  rmsIqr : Option ℚ
  errMsg : Option String
deriving DecidableEq

/-- Embeds `words_per_min` of `fluency.py`:
`0.0 if dur_sec <= 1e-6 else n_words / (dur_sec / 60.0)`. -/
def words_per_min (n_words : ℕ) (dur_sec : ℚ) : ℚ :=
  if dur_sec ≤ 1 / 1000000 then 0 else (n_words : ℚ) / (dur_sec / 60)

/-- Total length of a list of `(start, end)` segments; embeds
`sum(e - s for s, e in speech_segs)` (`articulation_time`, and the inline
`t_speech` computation of `process_one`). -/
def sumLens (segs : List (ℚ × ℚ)) : ℚ :=
  (segs.map (fun p => p.2 - p.1)).sum

/-- Embeds `long_pause_freq` of `fluency.py`: count the silence intervals of
length at least `min_long` and divide by the duration in minutes
(`0.0` when `total <= 1e-6`). -/
def long_pause_freq (silences : List (ℚ × ℚ)) (min_long : ℚ) (total : ℚ) : ℚ :=
  if total ≤ 1 / 1000000 then 0
  else ((silences.countP (fun p => decide (min_long ≤ p.2 - p.1)) : ℕ) : ℚ) / (total / 60)

/-- The merge loop of `run_pyannote_vad` (`fluency.py` lines 75-84), carrying
the currently open interval `(s, e)` (the mutable `merged[-1]`): a following
segment whose start is within 0.15 s of the open interval's end is fused into
it (`merged[-1][1] = max(merged[-1][1], e)`); otherwise the open interval is
emitted and the segment opens a new one. -/
def mergeAux : ℚ → ℚ → List (ℚ × ℚ) → List (ℚ × ℚ)
  | s, e, [] => [(s, e)]
  | s, e, (s2, e2) :: rest =>
    if s2 - e < 3 / 20 then mergeAux s (max e e2) rest
    else (s, e) :: mergeAux s2 e2 rest

/-- The 150 ms gap-merge pass of `run_pyannote_vad` applied to an
(already sorted) segment list. -/
def mergeSegs : List (ℚ × ℚ) → List (ℚ × ℚ)
  | [] => []
  | (s, e) :: rest => mergeAux s e rest

/-- The middle loop of `silences_from_speech`: for each consecutive pair
`(s1, e1), (s2, e2)` of speech segments, emit the gap `(e1, s2)` when
`s2 > e1`. -/
def betweenGaps : List (ℚ × ℚ) → List (ℚ × ℚ)
  | (_, e1) :: (s2, e2) :: rest =>
    (if e1 < s2 then [(e1, s2)] else []) ++ betweenGaps ((s2, e2) :: rest)
  | _ => []

/-- End of the last segment of a nonempty list (`segs[-1][1]`); `0` for `[]`
(never used on `[]` by the embedding, mirroring the guarded source). -/
def lastEnd : List (ℚ × ℚ) → ℚ
  | [] => 0
  | [(_, e)] => e
  | _ :: p :: rest => lastEnd (p :: rest)

/-- Embeds `silences_from_speech` of `fluency.py`: complement of the speech
segments inside `[0, total]` — leading gap, inner gaps, trailing gap;
`[(0, total)]` for an empty speech list. -/
def silences_from_speech (segs : List (ℚ × ℚ)) (total : ℚ) : List (ℚ × ℚ) :=
  match segs with
  | [] => [(0, total)]
  | (s0, _) :: _ =>
    (if 0 < s0 then [((0 : ℚ), s0)] else []) ++ betweenGaps segs ++
      (if lastEnd segs < total then [(lastEnd segs, total)] else [])

instance wordStartLeDecidable :
    DecidableRel (fun a b : Word => a.start ≤ b.start) :=
  fun a b => inferInstanceAs (Decidable (a.start ≤ b.start))

instance wordStartLeTotal : IsTotal Word (fun a b : Word => a.start ≤ b.start) :=
  ⟨fun a b => le_total a.start b.start⟩

instance wordStartLeTrans : IsTrans Word (fun a b : Word => a.start ≤ b.start) :=
  ⟨fun _ _ _ h h' => le_trans h h'⟩

/-- `sorted(words, key=lambda w: w.start)` — Python's sort is stable, and a
stable sort's output is determined by the key alone, so the (stable)
insertion sort is an exact model. -/
def sortWords (ws : List Word) : List Word :=
  List.insertionSort (fun a b : Word => a.start ≤ b.start) ws

/-- The run-splitting loop of `mlfr` (`fluency.py` lines 152-160):
`prev` is `ws[i-1]`, `run_len` the length of the current run; a clamped gap
`max(0.0, w.start - prev.end) >= pause_thr` closes the run.  Returns the
final `runs` list (the trailing `runs.append(run_len)` included). -/
def mlfrRuns (pause_thr : ℚ) : Word → ℕ → List Word → List ℕ
  | _, run_len, [] => [run_len]
  | prev, run_len, w :: rest =>
    if pause_thr ≤ max 0 (w.start - prev.«end») then
      run_len :: mlfrRuns pause_thr w 1 rest
    else
      mlfrRuns pause_thr w (run_len + 1) rest

/-- Arithmetic mean of a list of naturals as a rational (`np.mean(runs)`). -/
def natMean (l : List ℕ) : ℚ :=
  ((l.map (fun n => (n : ℚ))).sum) / (l.length : ℚ)

/-- Embeds `mlfr` of `fluency.py`: mean length of fluent runs after sorting
by start; `0.0` for an empty word list. -/
def mlfr (words : List Word) (pause_thr : ℚ) : ℚ :=
  match sortWords words with
  | [] => 0
  | w :: rest => natMean (mlfrRuns pause_thr w 1 rest)

/-- Largest word end time, `max(w.end for w in words)` (source requires the
list nonempty; `0` is an unused default for `[]`). -/
def maxEnd : List Word → ℚ
  | [] => 0
  | [w] => w.«end»
  | w :: w2 :: rest => max w.«end» (maxEnd (w2 :: rest))

/-- The inner `while` loop of `rate_stability` on the suffix of the word list
starting at the cursor: scan words while `start < e`, counting those with
`end > s`; returns `(count, number of words consumed)`. -/
def winCount (s e : ℚ) : List Word → ℕ × ℕ
  | [] => (0, 0)
  | w :: rest =>
    if w.start < e then
      let p := winCount s e rest
      (if s < w.«end» then p.1 + 1 else p.1, p.2 + 1)
    else (0, 0)

/-- The window loop of `rate_stability` with a 5-second window: `n` windows
remain, `b` is the current window index (window `[t0+5b, t0+5(b+1))`,
the consecutive `np.arange` bin pair), `wi` the word cursor.  After each
window the cursor is rewound by 5 (`wi = max(0, wi - 5)`, which is truncated
subtraction on `ℕ`).  Rates are `c / (5/60) = 12·c` words per minute. -/
def winRates (words : List Word) (t0 : ℚ) : ℕ → ℕ → ℕ → List ℚ
  | 0, _, _ => []
  | n + 1, b, wi =>
    let s := t0 + 5 * (b : ℚ)
    let e := t0 + 5 * ((b : ℚ) + 1)
    let p := winCount s e (words.drop wi)
    (12 * (p.1 : ℚ)) :: winRates words t0 n (b + 1) ((wi + p.2) - 5)

/-- Bessel-corrected sample variance, the square of `np.std(xs, ddof=1)`. -/
def sampleVarQ (xs : List ℚ) : ℚ :=
  let n : ℚ := (xs.length : ℚ)
  let mu := xs.sum / n
  ((xs.map (fun x => (x - mu) ^ 2)).sum) / (n - 1)

/-- `len(np.arange(t0, t1 + 5, 5)) - 1`, the number of windows the source
iterates (`np.arange(start, stop, step)` has `⌈(stop - start)/step⌉`
entries). -/
def numWindows (t0 t1 : ℚ) : ℕ :=
  (⌈(t1 + 5 - t0) / 5⌉ - 1).toNat

/-- Embeds `rate_stability` of `fluency.py` at its only call site
(`window_sec = 5.0`), represented by its square: `0` for an empty list or a
span shorter than the window; otherwise the sample variance of the window
rates produced by the cursor loop, `0` when fewer than two rate samples. -/
def rate_stability_sq (words : List Word) : ℚ :=
  match words with
  | [] => 0
  | w0 :: _ =>
    let t0 := w0.start
    let t1 := maxEnd words
    if t1 - t0 < 5 then 0
    else
      let rates := winRates words t0 (numWindows t0 t1) 0 0
      if 2 ≤ rates.length then sampleVarQ rates else 0

/-- Embeds `score_metric` of `fluency.py`: the fixed piecewise-threshold
table mapping one raw feature value to a sub-score, dispatched on the
feature's name; unmatched names yield the neutral default 0.5. -/
def score_metric (value : ℚ) (metric_name : String) : ℚ :=
  if metric_name = "SR" then
    if 160 ≤ value then 1
    else if 140 ≤ value then 9 / 10
    else if 120 ≤ value then 7 / 10
    else if 100 ≤ value then 1 / 2
    else if 80 ≤ value then 3 / 10
    else 1 / 10
  else if metric_name = "AR" then
    if 180 ≤ value then 1
    else if 160 ≤ value then 9 / 10
    else if 140 ≤ value then 7 / 10
    else if 120 ≤ value then 1 / 2
    else if 100 ≤ value then 3 / 10
    else 1 / 10
  else if metric_name = "PR" then
    if 3 / 20 ≤ value ∧ value ≤ 1 / 4 then 1
    else if (1 / 10 ≤ value ∧ value < 3 / 20) ∨ (1 / 4 < value ∧ value ≤ 3 / 10) then 4 / 5
    else if 3 / 10 < value ∧ value ≤ 7 / 20 then 3 / 5
    else if 7 / 20 < value ∧ value ≤ 2 / 5 then 2 / 5
    else if 2 / 5 < value ∧ value ≤ 1 / 2 then 1 / 5
    else 1 / 10
  else if metric_name = "MLFR" then
    if 10 ≤ value then 1
    else if 8 ≤ value then 4 / 5
    else if 6 ≤ value then 3 / 5
    else if 5 ≤ value then 2 / 5
    else if 3 ≤ value then 1 / 5
    else 1 / 10
  else if metric_name = "LPF" then
    if value ≤ 2 then 1
    else if value ≤ 3 then 4 / 5
    else if value ≤ 4 then 3 / 5
    else if value ≤ 5 then 2 / 5
    else if value ≤ 7 then 1 / 5
    else 1 / 10
  else if metric_name = "RateSD" then
    if value ≤ 30 then 1
    else if value ≤ 40 then 4 / 5
    else if value ≤ 50 then 3 / 5
    else if value ≤ 65 then 2 / 5
    else if value ≤ 80 then 1 / 5
    else 1 / 10
  else if metric_name = "F0_IQR" then
    if 40 ≤ value ∧ value ≤ 80 then 1
    else if (30 ≤ value ∧ value < 40) ∨ (80 < value ∧ value ≤ 90) then 7 / 10
    else if (20 ≤ value ∧ value < 30) ∨ (90 < value ∧ value ≤ 100) then 1 / 2
    else 3 / 10
  else if metric_name = "RMS_IQR" then
    if 8 ≤ value ∧ value ≤ 15 then 1
    else if (6 ≤ value ∧ value < 8) ∨ (15 < value ∧ value ≤ 18) then 7 / 10
    else if (5 ≤ value ∧ value < 6) ∨ (18 < value ∧ value ≤ 20) then 1 / 2
    else 3 / 10
  else 1 / 2

/-- `score_metric · "RateSD"` expressed on the square of its argument
(`RateSD` is a standard deviation, represented by its square in this
embedding; `score_metric_RateSD_sq_bridge` proves the two tables agree). -/
def score_RateSD_sq (vsq : ℚ) : ℚ :=
  if vsq ≤ 900 then 1
  else if vsq ≤ 1600 then 4 / 5
  else if vsq ≤ 2500 then 3 / 5
  else if vsq ≤ 4225 then 2 / 5
  else if vsq ≤ 6400 then 1 / 5
  else 1 / 10

/-- Embeds `level_from_score_new` of `fluency.py`. -/
def level_from_score_new (s : ℚ) : String :=
  if 3 / 4 ≤ s then "Advanced"
  else if 1 / 2 ≤ s then "Intermediate"
  else if 3 / 10 ≤ s then "Basic"
  else "Below Basic"

instance pairLexLeDecidable :
    DecidableRel (fun a b : ℚ × ℚ => a.1 < b.1 ∨ (a.1 = b.1 ∧ a.2 ≤ b.2)) :=
  fun a b => inferInstanceAs (Decidable (a.1 < b.1 ∨ (a.1 = b.1 ∧ a.2 ≤ b.2)))

/-- `segments.sort()` — Python's lexicographic sort of `(start, end)` pairs. -/
def sortPairs (l : List (ℚ × ℚ)) : List (ℚ × ℚ) :=
  List.insertionSort (fun a b : ℚ × ℚ => a.1 < b.1 ∨ (a.1 = b.1 ∧ a.2 ≤ b.2)) l

/-- Embeds `run_pyannote_vad`: the external detector's timeline (an effect,
from the environment) is sorted and passed through the 150 ms merge pass;
an error of the external detector propagates. -/
def run_pyannote_vad (env : AudioEnv) : Except Unit (List (ℚ × ℚ)) :=
  match env.vad with
  | Except.ok raw => Except.ok (mergeSegs (sortPairs raw))
  | Except.error e => Except.error e

/-- The ASR stage of the backend `process_one` (lines 436-443): on success
the recognizer's words filtered to those whose text has an alphabetic
character (`words_clean`); on failure the empty list. -/
def cleanWords : Except Unit (List Word) → List Word
  | Except.ok ws => ws.filter (fun w => w.text.any Char.isAlpha)
  | Except.error _ => []

/-- The timing composite of the backend `process_one` (lines 480-487):
`0.25·SR + 0.20·AR + 0.15·PR + 0.20·MLFR + 0.10·LPF + 0.10·RateSD`
over the metric sub-scores (the `RateSD` sub-score taken on the variance,
see `score_metric_RateSD_sq_bridge`). -/
def timing_score (sr_wpm ar_wpm pr mlfr_val lpf rsd_sq : ℚ) : ℚ :=
  1 / 4 * score_metric sr_wpm "SR" +
  1 / 5 * score_metric ar_wpm "AR" +
  3 / 20 * score_metric pr "PR" +
  1 / 5 * score_metric mlfr_val "MLFR" +
  1 / 10 * score_metric lpf "LPF" +
  1 / 10 * score_RateSD_sq rsd_sq

/-- The prosody stage of the backend `process_one` (lines 452-457):
`prosody_iqrs` result, or `(0.0, 0.0)` kept from initialization when the
analyzer raises. -/
def prosodyOf (env : AudioEnv) : ℚ × ℚ :=
  match env.prosody with
  | Except.ok p => p
  | Except.error _ => (0, 0)

/-- The zero-duration result of the backend `process_one` (line 422):
`{"Fluency": 0.0, "Level": "Below Basic", "Error": ...}`. -/
def zeroResult : ScoreResult :=
  ⟨0, "Below Basic", none, none, none, none, none, none, none, none, none,
    none, none, none, some "Audio file is empty or invalid."⟩

/-- Feature computation and scoring of the backend `process_one`
(lines 445-509) past the LPF computation: builds the full result record.
`pr`, `t_speech` come from the VAD stage, `lpf` from the guarded LPF line,
`wc` is `words_clean`. -/
def buildResult (env : AudioEnv) (use_prosody : Bool)
    (mlfr_pause_sec pr t_speech lpf : ℚ) (wc : List Word) : ScoreResult :=
  let total := env.total
  let n_words := wc.length
  let sr_wpm := words_per_min n_words total
  let ar_wpm := if 0 < t_speech then words_per_min n_words t_speech else 0
  let mlfr_val := mlfr wc mlfr_pause_sec
  let rsd_sq := rate_stability_sq wc
  let fr := if use_prosody then prosodyOf env else ((0 : ℚ), (0 : ℚ))
  let timing := timing_score sr_wpm ar_wpm pr mlfr_val lpf rsd_sq
  let ps := 1 / 2 * score_metric fr.1 "F0_IQR" + 1 / 2 * score_metric fr.2 "RMS_IQR"
  let fluency := if use_prosody then 7 / 10 * timing + 3 / 10 * ps else timing
  ⟨fluency, level_from_score_new fluency, some timing,
    (if use_prosody then some ps else none), some n_words, some total,
    some sr_wpm, some ar_wpm, some pr, some lpf, some mlfr_val, some rsd_sq,
    some fr.1, some fr.2, none⟩

/-- Embeds the backend `process_one` (the second, overriding definition,
lines 410-509).  Control flow: zero duration short-circuits (line 421);
a VAD success binds `silences`, `t_speech`, `pr` (lines 425-429); a VAD
failure leaves `silences` unbound and sets `t_speech = total`, `pr = 0.0`
(lines 430-433).  The LPF line
`long_pause_freq(silences, ...) if n_words > 0 else 0.0` (line 448) then
reads the unbound local `silences` whenever `n_words > 0`, which raises
`UnboundLocalError` — modelled as `Except.error "NameError: silences"`. -/
def process_one (env : AudioEnv) (use_prosody : Bool)
    (long_pause_sec mlfr_pause_sec : ℚ) : Except String ScoreResult :=
  if env.total = 0 then Except.ok zeroResult
  else
    match run_pyannote_vad env with
    | Except.ok speech =>
      let t_speech := sumLens speech
      let pr := if env.total ≤ 1 / 1000000 then 0 else (env.total - t_speech) / env.total
      let wc := cleanWords env.asr
      let lpf :=
        if 0 < wc.length then
          long_pause_freq (silences_from_speech speech env.total) long_pause_sec env.total
        else 0
      Except.ok (buildResult env use_prosody mlfr_pause_sec pr t_speech lpf wc)
    | Except.error _ =>
      let wc := cleanWords env.asr
      if 0 < wc.length then Except.error "NameError: silences"
      else Except.ok (buildResult env use_prosody mlfr_pause_sec 0 env.total 0 wc)

/-- The constant record returned by the mock-mode `evaluate_fluency`
(lines 560-576).  `RateSD: 35.0` is represented by its square `1225`. -/
def mockResult : ScoreResult :=
  ⟨39 / 50, "Advanced", some (17 / 20), some (13 / 20), some 55, some (127 / 5),
    some (1299 / 10), some (331 / 2), some (21 / 100), some (23 / 10),
    some (17 / 2), some 1225, some 55, some (21 / 2), none⟩

/-- Embeds `evaluate_fluency` (lines 516-576): the body only prints the
mock-mode banner and returns `mockResult`; every parameter and the entire
external environment (the commented-out pipeline call) are ignored. -/
def evaluate_fluency (env : AudioEnv) (audio_path vad_model : String)
    (hf_token : Option String) (asr_model : String) (use_prosody : Bool)
    (long_pause_sec mlfr_pause_sec : ℚ) : ScoreResult :=
  mockResult

/-!  Specification-side definitions (written from the claims' words, for
refutation/refinement comparison against the source embeddings above). -/

/-- From claim C6's words: the number of silence intervals of length at
least `min_long`. -/
def countLong (silences : List (ℚ × ℚ)) (min_long : ℚ) : ℕ :=
  (silences.filter (fun p => decide (min_long ≤ p.2 - p.1))).length

/-- From claim C7's words: the number of fixed 5-second windows partitioning
the span from `t0` to `t1`. -/
def numWindowsSpec (t0 t1 : ℚ) : ℕ :=
  (⌈(t1 - t0) / 5⌉).toNat

/-- From claim C7's words: for each 5-second window, count exactly the words
whose `[start, end)` interval overlaps the window, converted to
words-per-minute. -/
def idealRates (words : List Word) (t0 : ℚ) (n : ℕ) : List ℚ :=
  (List.range n).map (fun b =>
    12 * (((words.filter (fun w =>
      decide (w.start < t0 + 5 * ((b : ℚ) + 1)) && decide (t0 + 5 * (b : ℚ) < w.«end»))).length : ℚ)))

/-- From claim C7's words: `rate_stability` as the claim describes it —
exact overlap counts per window — represented by its square like
`rate_stability_sq`. -/
def rate_stability_claimed_sq (words : List Word) : ℚ :=
  match words with
  | [] => 0
  | w0 :: _ =>
    let t0 := w0.start
    let t1 := maxEnd words
    if t1 - t0 < 5 then 0
    else
      let rates := idealRates words t0 (numWindowsSpec t0 t1)
      if 2 ≤ rates.length then sampleVarQ rates else 0

/-- Cursor position of `rate_stability`'s word index `wi` at the start of
window `b` (amended claim C7): after scanning a window the cursor is rewound
by 5. -/
def cursorAt (words : List Word) (t0 : ℚ) : ℕ → ℕ
  | 0 => 0
  | b + 1 =>
    let wi := cursorAt words t0 b
    (wi + (winCount (t0 + 5 * (b : ℚ)) (t0 + 5 * ((b : ℚ) + 1)) (words.drop wi)).2) - 5

/-- Window rates as the amended claim C7 describes them: for window `b`, a
forward scan from `cursorAt b` counts the scanned words overlapping the
window. -/
def cursorRates (words : List Word) (t0 : ℚ) (n : ℕ) : List ℚ :=
  (List.range n).map (fun b : ℕ =>
    12 * (((winCount (t0 + 5 * (b : ℚ)) (t0 + 5 * ((b : ℚ) + 1))
      (words.drop (cursorAt words t0 b))).1 : ℚ)))

/-- From amended claim C8's words: the words extending the current fluent
run after `prev`, and the remaining words; splits at a clamped gap
`max(0, start - prev.end) ≥ pause_thr`. -/
def takeRun (pause_thr : ℚ) : Word → List Word → List Word × List Word
  | _, [] => ([], [])
  | prev, w :: rest =>
    if pause_thr ≤ max 0 (w.start - prev.«end») then ([], w :: rest)
    else
      let p := takeRun pause_thr w rest
      (w :: p.1, p.2)

/-- From amended claim C8's words: the maximal fluent runs of a (sorted)
word list, splitting at clamped gaps `≥ pause_thr`. -/
def runsSpec (pause_thr : ℚ) : List Word → List (List Word)
  | [] => []
  | w :: rest =>
    (w :: (takeRun pause_thr w rest).1) :: runsSpec pause_thr (takeRun pause_thr w rest).2
termination_by l => l.length
decreasing_by
  have key : ∀ (prev : Word) (l : List Word),
      (takeRun pause_thr prev l).2.length ≤ l.length := by
    intro prev l
    induction l generalizing prev with
    | nil => simp [takeRun]
    | cons x xs ih =>
      by_cases h : pause_thr ≤ max 0 (x.start - prev.«end»)
      · simp [takeRun, h]
      · simpa [takeRun, h] using Nat.le_succ_of_le (ih x)
  simpa using Nat.lt_succ_of_le (key w rest)

/-- From claim C5's words: the union of a speech list with its derived
silences, ordered by start — the speech segments interleaved with the inner
gaps, a leading gap and a trailing gap. -/
def weave : List (ℚ × ℚ) → List (ℚ × ℚ)
  | (s1, e1) :: (s2, e2) :: rest =>
    (s1, e1) :: ((if e1 < s2 then [(e1, s2)] else []) ++ weave ((s2, e2) :: rest))
  | l => l

/-- From claim C5's words: `silences_from_speech(speech, T) ∪ speech`,
ordered by start. -/
def orderedUnion (segs : List (ℚ × ℚ)) (total : ℚ) : List (ℚ × ℚ) :=
  match segs with
  | [] => [(0, total)]
  | (s0, _) :: _ =>
    (if 0 < s0 then [((0 : ℚ), s0)] else []) ++ weave segs ++
      (if lastEnd segs < total then [(lastEnd segs, total)] else [])

/-!  Concrete inputs used by witnesses and counterexamples. -/

/-- Environment of a 10 s file on which the VAD detector raises and the
recognizer returns one alphabetic word. -/
def envCrash : AudioEnv := ⟨10, Except.error (), Except.ok [⟨['h', 'i'], 0, 1 / 2⟩], Except.ok (0, 0)⟩

/-- Environment of a zero-duration (empty) audio file. -/
def envZero : AudioEnv := ⟨0, Except.ok [], Except.ok [], Except.ok (0, 0)⟩

/-- Environment of a 60 s file that is all silence: the VAD detector returns
no speech and the recognizer returns no words. -/
def envC6 : AudioEnv := ⟨60, Except.ok [], Except.ok [], Except.ok (0, 0)⟩

/-- Environment of a 60 s file with one speech segment and one recognized
word. -/
def envC6b : AudioEnv := ⟨60, Except.ok [(0, 50)], Except.ok [⟨['h', 'i'], 0, 1 / 2⟩], Except.ok (0, 0)⟩

/-- Word list refuting claim C7's exact-overlap counting: the word `(6, 7)`
overlaps window `[5, 10)` but the cursor scan never reaches it there. -/
def exC7 : List Word := [⟨['a'], 0, 1⟩, ⟨['b'], 10, 11⟩, ⟨['c'], 6, 7⟩]

/-- Two-word list spanning two windows, used by the C7 witness. -/
def exW2 : List Word := [⟨['a'], 0, 1⟩, ⟨['b'], 6, 7⟩]

/-- First word of the C8 counterexample. -/
def wa8 : Word := ⟨['a'], 0, 1⟩

/-- Second word of the C8 counterexample; it overlaps `wa8`, so the raw gap
is negative but the source's clamped gap is `0`. -/
def wb8 : Word := ⟨['b'], 1 / 2, 2⟩

/-!  Theorems. -/

/-- On nonnegative arguments the source's `RateSD` score table and its
square-represented form agree: the embedding of the scoring stage on
variance is faithful to `score_metric` applied to the standard deviation. -/
theorem score_metric_RateSD_sq_bridge (v : ℚ) (hv : 0 ≤ v) :
    score_metric v "RateSD" = score_RateSD_sq (v ^ 2) := by
  have h30 : v ≤ 30 ↔ v ^ 2 ≤ 900 := by
    constructor
    · intro h; nlinarith
    · intro h; nlinarith
  have h40 : v ≤ 40 ↔ v ^ 2 ≤ 1600 := by
    constructor
    · intro h; nlinarith
    · intro h; nlinarith
  have h50 : v ≤ 50 ↔ v ^ 2 ≤ 2500 := by
    constructor
    · intro h; nlinarith
    · intro h; nlinarith
  have h65 : v ≤ 65 ↔ v ^ 2 ≤ 4225 := by
    constructor
    · intro h; nlinarith
    · intro h; nlinarith
  have h80 : v ≤ 80 ↔ v ^ 2 ≤ 6400 := by
    constructor
    · intro h; nlinarith
    · intro h; nlinarith
  simp [score_metric, score_RateSD_sq, h30, h40, h50, h65, h80]

/-- Claim C1 (code bug): the spec requires that a VAD failure still yields a
complete ScoreResult with `PR = 0.0` for every word count, and the backend's
`except` branch indeed installs the fallbacks — but it never binds
`silences`, so as soon as the recognizer returns at least one clean word the
LPF line raises `UnboundLocalError`.  This theorem evaluates the embedded
`process_one` at such a failing input: a 10 s file whose VAD call raises and
whose ASR returns one alphabetic word. -/
theorem C1_vad_failure_raises_on_words :
    process_one envCrash false (7 / 10) (1 / 4) = Except.error "NameError: silences" := by
  norm_num [process_one, envCrash, run_pyannote_vad, cleanWords, List.filter,
    (by decide : ('h'.isAlpha || 'i'.isAlpha) = true)]

/-- Claim C2 counterexample: the evaluation entry point exposed to callers,
`evaluate_fluency`, is the mock-mode stub; on a zero-duration input it
returns `Fluency = 0.78`, `Level = "Advanced"` — not `0.0` / "Below Basic"
as the claim states. -/
theorem C2_mock_entry_point_counterexample :
    envZero.total = 0 ∧
    (evaluate_fluency envZero "empty.wav" "pyannote/voice-activity-detection"
        (some "token") "small.en" false (7 / 10) (1 / 4)).fluency ≠ 0 ∧
    (evaluate_fluency envZero "empty.wav" "pyannote/voice-activity-detection"
        (some "token") "small.en" false (7 / 10) (1 / 4)).level ≠ "Below Basic" := by
  refine ⟨rfl, ?_, ?_⟩
  · norm_num [evaluate_fluency, mockResult]
  · simp [evaluate_fluency, mockResult]

/-- Claim C2 as amended: the zero-duration short-circuit lives in
`process_one` (the evaluation orchestrator), which on `total == 0` returns
`{"Fluency": 0.0, "Level": "Below Basic", "Error": ...}` without raising;
the exposed `evaluate_fluency` never raises either but returns the fixed
mock record (claim C3). -/
theorem C2_zero_duration_process_one (env : AudioEnv) (use_prosody : Bool)
    (long_pause_sec mlfr_pause_sec : ℚ) (h : env.total = 0) :
    process_one env use_prosody long_pause_sec mlfr_pause_sec = Except.ok zeroResult ∧
    zeroResult.fluency = 0 ∧ zeroResult.level = "Below Basic" := by
  refine ⟨?_, rfl, rfl⟩
  simp [process_one, h]

/-- Witness for `C2_zero_duration_process_one` at the zero-duration
environment. -/
theorem C2_zero_duration_process_one_witness :
    envZero.total = 0 ∧
    (process_one envZero false (7 / 10) (1 / 4) = Except.ok zeroResult ∧
      zeroResult.fluency = 0 ∧ zeroResult.level = "Below Basic") :=
  ⟨rfl, C2_zero_duration_process_one envZero false (7 / 10) (1 / 4) rfl⟩

/-- Claim C3: for every combination of arguments and every behaviour of the
external collaborators, `evaluate_fluency` returns the fixed mock-mode
record — the VAD/ASR/scoring pipeline is never invoked (the result does not
depend on the environment).  `RateSD: 35.0` is represented by its square
`1225` (see the file header). -/
theorem C3_evaluate_fluency_constant (env : AudioEnv) (audio_path vad_model : String)
    (hf_token : Option String) (asr_model : String) (use_prosody : Bool)
    (long_pause_sec mlfr_pause_sec : ℚ) :
    evaluate_fluency env audio_path vad_model hf_token asr_model use_prosody
        long_pause_sec mlfr_pause_sec =
      ⟨39 / 50, "Advanced", some (17 / 20), some (13 / 20), some 55, some (127 / 5),
        some (1299 / 10), some (331 / 2), some (21 / 100), some (23 / 10),
        some (17 / 2), some 1225, some 55, some (21 / 2), none⟩ :=
  rfl

/-- Claim C9: `level_from_score_new` maps scores by the monotonic,
non-overlapping thresholds 0.75/0.50/0.30, with the three boundary examples
of the spec. -/
theorem C9_level_thresholds :
    (∀ s : ℚ,
      (3 / 4 ≤ s → level_from_score_new s = "Advanced") ∧
      (1 / 2 ≤ s ∧ s < 3 / 4 → level_from_score_new s = "Intermediate") ∧
      (3 / 10 ≤ s ∧ s < 1 / 2 → level_from_score_new s = "Basic") ∧
      (s < 3 / 10 → level_from_score_new s = "Below Basic")) ∧
    level_from_score_new (3 / 4) = "Advanced" ∧
    level_from_score_new (74999 / 100000) = "Intermediate" ∧
    level_from_score_new 0 = "Below Basic" := by
  refine ⟨?_, by norm_num [level_from_score_new], by norm_num [level_from_score_new],
    by norm_num [level_from_score_new]⟩
  intro s
  refine ⟨fun h => ?_, fun h => ?_, fun h => ?_, fun h => ?_⟩ <;>
    · unfold level_from_score_new
      split_ifs <;> first | rfl | linarith [h]


/-- Witness for `C9_level_thresholds`: each threshold case applied at a
concrete score. -/
theorem C9_level_thresholds_witness :
    ((3 : ℚ) / 4 ≤ 8 / 10 ∧ level_from_score_new (8 / 10) = "Advanced") ∧
    ((1 : ℚ) / 2 ≤ 6 / 10 ∧ (6 : ℚ) / 10 < 3 / 4 ∧ level_from_score_new (6 / 10) = "Intermediate") ∧
    ((3 : ℚ) / 10 ≤ 4 / 10 ∧ (4 : ℚ) / 10 < 1 / 2 ∧ level_from_score_new (4 / 10) = "Basic") ∧
    ((1 : ℚ) / 10 < 3 / 10 ∧ level_from_score_new (1 / 10) = "Below Basic") :=
  ⟨⟨by norm_num, (C9_level_thresholds.1 (8 / 10)).1 (by norm_num)⟩,
   ⟨by norm_num, by norm_num, (C9_level_thresholds.1 (6 / 10)).2.1 ⟨by norm_num, by norm_num⟩⟩,
   ⟨by norm_num, by norm_num, (C9_level_thresholds.1 (4 / 10)).2.2.1 ⟨by norm_num, by norm_num⟩⟩,
   ⟨by norm_num, (C9_level_thresholds.1 (1 / 10)).2.2.2 (by norm_num)⟩⟩

/-- Claim C6 counterexample: a 60 s all-silence file with zero recognized
words.  The claim's formula gives `LPF = 1` pause per minute (one 60 s
silence interval ≥ 0.7 s, duration one minute), but the backend's guarded
line `... if n_words > 0 else 0.0` returns `LPF = 0`. -/
theorem C6_lpf_zero_words_counterexample :
    (process_one envC6 false (7 / 10) (1 / 4)).map ScoreResult.lpf = Except.ok (some 0) ∧
    long_pause_freq (silences_from_speech [] 60) (7 / 10) 60 = 1 ∧
    (some (0 : ℚ) : Option ℚ) ≠ some 1 := by
  refine ⟨?_, ?_, by simp⟩
  · norm_num [process_one, envC6, run_pyannote_vad, sortPairs, mergeSegs,
      List.insertionSort, cleanWords, buildResult, Except.map]
  · norm_num [long_pause_freq, silences_from_speech, betweenGaps, lastEnd,
      List.countP, List.countP.go]

/-- Claim C6 as amended: `long_pause_freq` itself equals the count of long
silences divided by the duration in minutes for `total > 1e-6` (and `0`
otherwise), and `process_one` returns exactly that value as `LPF` whenever
at least one clean word was recognized; with zero recognized words the
returned `LPF` is `0.0`. -/
theorem C6_lpf_amended :
    (∀ (silences : List (ℚ × ℚ)) (min_long total : ℚ), 1 / 1000000 < total →
      long_pause_freq silences min_long total = (countLong silences min_long : ℚ) / (total / 60)) ∧
    (∀ (silences : List (ℚ × ℚ)) (min_long total : ℚ), total ≤ 1 / 1000000 →
      long_pause_freq silences min_long total = 0) ∧
    (∀ (env : AudioEnv) (use_prosody : Bool) (long_pause_sec mlfr_pause_sec : ℚ)
      (raw : List (ℚ × ℚ)), env.vad = Except.ok raw → env.total ≠ 0 →
      0 < (cleanWords env.asr).length →
      (process_one env use_prosody long_pause_sec mlfr_pause_sec).map ScoreResult.lpf =
        Except.ok (some (long_pause_freq
          (silences_from_speech (mergeSegs (sortPairs raw)) env.total)
          long_pause_sec env.total))) := by
  refine ⟨?_, ?_, ?_⟩
  · intro silences min_long total h
    simp only [long_pause_freq, countLong, List.countP_eq_length_filter]
    rw [if_neg (not_le.mpr h)]
  · intro silences min_long total h
    simp only [long_pause_freq]
    rw [if_pos h]
  · intro env use_prosody long_pause_sec mlfr_pause_sec raw hvad htotal hwords
    simp only [process_one, run_pyannote_vad, hvad, if_neg htotal, if_pos hwords]
    simp [buildResult, Except.map]

/-- Witness for `C6_lpf_amended`, each part applied at concrete inputs. -/
theorem C6_lpf_amended_witness :
    ((1 : ℚ) / 1000000 < 60 ∧
      long_pause_freq [((0 : ℚ), (2 : ℚ))] (7 / 10) 60 = (countLong [((0 : ℚ), (2 : ℚ))] (7 / 10) : ℚ) / (60 / 60)) ∧
    ((0 : ℚ) ≤ 1 / 1000000 ∧ long_pause_freq [((0 : ℚ), (2 : ℚ))] (7 / 10) 0 = 0) ∧
    (envC6b.vad = Except.ok [((0 : ℚ), (50 : ℚ))] ∧ envC6b.total ≠ 0 ∧
      0 < (cleanWords envC6b.asr).length ∧
      (process_one envC6b false (7 / 10) (1 / 4)).map ScoreResult.lpf =
        Except.ok (some (long_pause_freq
          (silences_from_speech (mergeSegs (sortPairs [((0 : ℚ), (50 : ℚ))])) envC6b.total)
          (7 / 10) envC6b.total))) :=
  ⟨⟨by norm_num, C6_lpf_amended.1 [((0 : ℚ), (2 : ℚ))] (7 / 10) 60 (by norm_num)⟩,
   ⟨by norm_num, C6_lpf_amended.2.1 [((0 : ℚ), (2 : ℚ))] (7 / 10) 0 (by norm_num)⟩,
   ⟨rfl, by norm_num [envC6b], by decide,
    C6_lpf_amended.2.2 envC6b false (7 / 10) (1 / 4) [((0 : ℚ), (50 : ℚ))] rfl
      (by norm_num [envC6b]) (by decide)⟩⟩


/-- Sub-score bounds for the six timing metrics: every branch of the
threshold table yields a value in `[0.1, 1]`. -/
theorem score_metric_timing_bounds (v : ℚ) (name : String)
    (h : name ∈ (["SR", "AR", "PR", "MLFR", "LPF", "RateSD"] : List String)) :
    1 / 10 ≤ score_metric v name ∧ score_metric v name ≤ 1 := by
  fin_cases h <;>
    · constructor <;>
        · simp [score_metric]
          split_ifs <;> norm_num

/-- Sub-score bounds for the square-represented `RateSD` table. -/
theorem score_RateSD_sq_bounds (vsq : ℚ) :
    1 / 10 ≤ score_RateSD_sq vsq ∧ score_RateSD_sq vsq ≤ 1 := by
  constructor <;>
    · simp only [score_RateSD_sq]
      split_ifs <;> norm_num

/-- Sub-score bounds for the two prosody metrics: every branch yields a
value in `[0.3, 1]`. -/
theorem score_metric_prosody_bounds (v : ℚ) (name : String)
    (h : name ∈ (["F0_IQR", "RMS_IQR"] : List String)) :
    3 / 10 ≤ score_metric v name ∧ score_metric v name ≤ 1 := by
  fin_cases h <;>
    · constructor <;>
        · simp [score_metric]
          split_ifs <;> norm_num

/-- The weighted timing composite is bounded by the sub-score bounds
(the weights sum to one). -/
theorem timing_score_bounds (sr_wpm ar_wpm pr mlfr_val lpf rsd_sq : ℚ) :
    1 / 10 ≤ timing_score sr_wpm ar_wpm pr mlfr_val lpf rsd_sq ∧
    timing_score sr_wpm ar_wpm pr mlfr_val lpf rsd_sq ≤ 1 := by
  have h1 := score_metric_timing_bounds sr_wpm "SR" (by simp)
  have h2 := score_metric_timing_bounds ar_wpm "AR" (by simp)
  have h3 := score_metric_timing_bounds pr "PR" (by simp)
  have h4 := score_metric_timing_bounds mlfr_val "MLFR" (by simp)
  have h5 := score_metric_timing_bounds lpf "LPF" (by simp)
  have h6 := score_RateSD_sq_bounds rsd_sq
  unfold timing_score
  constructor <;> linarith [h1.1, h1.2, h2.1, h2.2, h3.1, h3.2, h4.1, h4.2, h5.1, h5.2, h6.1, h6.2]

/-- Every result built by the scoring stage has a strictly positive Fluency
score. -/
theorem buildResult_fluency_pos (env : AudioEnv) (use_prosody : Bool)
    (mlfr_pause_sec pr t_speech lpf : ℚ) (wc : List Word) :
    0 < (buildResult env use_prosody mlfr_pause_sec pr t_speech lpf wc).fluency := by
  have ht := timing_score_bounds (words_per_min wc.length env.total)
    (if 0 < t_speech then words_per_min wc.length t_speech else 0) pr
    (mlfr wc mlfr_pause_sec) lpf (rate_stability_sq wc)
  cases use_prosody with
  | false =>
    simp only [buildResult, Bool.false_eq_true, if_false, reduceIte]
    linarith [ht.1]
  | true =>
    have hf := score_metric_prosody_bounds (prosodyOf env).1 "F0_IQR" (by simp)
    have hr := score_metric_prosody_bounds (prosodyOf env).2 "RMS_IQR" (by simp)
    simp only [buildResult, reduceIte]
    linarith [ht.1, hf.1, hr.1]

/-- A successful `process_one` on a non-degenerate file always scores
strictly positive Fluency. -/
theorem process_one_fluency_pos (env : AudioEnv) (use_prosody : Bool)
    (long_pause_sec mlfr_pause_sec : ℚ) (r : ScoreResult)
    (h : ¬ env.total = 0)
    (hok : process_one env use_prosody long_pause_sec mlfr_pause_sec = Except.ok r) :
    0 < r.fluency := by
  rw [process_one, if_neg h] at hok
  revert hok
  cases hvad : run_pyannote_vad env with
  | error e =>
    dsimp only
    by_cases hw : 0 < (cleanWords env.asr).length
    · rw [if_pos hw]
      intro hok
      exact Except.noConfusion hok
    · rw [if_neg hw]
      intro hok
      rw [← Except.ok.inj hok]
      exact buildResult_fluency_pos env use_prosody mlfr_pause_sec 0 env.total 0
        (cleanWords env.asr)
  | ok speech =>
    dsimp only
    intro hok
    rw [← Except.ok.inj hok]
    exact buildResult_fluency_pos env use_prosody mlfr_pause_sec _ _ _ (cleanWords env.asr)

/-- Claim C10: for every value, each of the six timing metrics scores in
`[0.1, 1.0]` (never `0.0`); consequently the weighted timing composite of
any evaluation reaching the scoring stage lies in `[0.1, 1.0]`, and a
returned `Fluency` of exactly `0.0` can only come from the zero-duration
(empty-audio) short-circuit. -/
theorem C10_scores_bounded :
    (∀ (v : ℚ) (name : String),
      name ∈ (["SR", "AR", "PR", "MLFR", "LPF", "RateSD"] : List String) →
      1 / 10 ≤ score_metric v name ∧ score_metric v name ≤ 1) ∧
    (∀ sr_wpm ar_wpm pr mlfr_val lpf rsd_sq : ℚ,
      1 / 10 ≤ timing_score sr_wpm ar_wpm pr mlfr_val lpf rsd_sq ∧
      timing_score sr_wpm ar_wpm pr mlfr_val lpf rsd_sq ≤ 1) ∧
    (∀ (env : AudioEnv) (use_prosody : Bool) (long_pause_sec mlfr_pause_sec : ℚ)
      (r : ScoreResult),
      process_one env use_prosody long_pause_sec mlfr_pause_sec = Except.ok r →
      r.fluency = 0 → env.total = 0) := by
  refine ⟨score_metric_timing_bounds, timing_score_bounds, ?_⟩
  intro env use_prosody long_pause_sec mlfr_pause_sec r hok hfl
  by_cases h : env.total = 0
  · exact h
  · exfalso
    have hpos := process_one_fluency_pos env use_prosody long_pause_sec mlfr_pause_sec r h hok
    rw [hfl] at hpos
    exact lt_irrefl 0 hpos

/-- Witness for `C10_scores_bounded`: the three parts applied at concrete
inputs (value 0 with name "SR"; all-zero features; the zero-duration
environment). -/
theorem C10_scores_bounded_witness :
    (("SR" : String) ∈ (["SR", "AR", "PR", "MLFR", "LPF", "RateSD"] : List String) ∧
      1 / 10 ≤ score_metric 0 "SR" ∧ score_metric 0 "SR" ≤ 1) ∧
    (1 / 10 ≤ timing_score 0 0 0 0 0 0 ∧ timing_score 0 0 0 0 0 0 ≤ 1) ∧
    (process_one envZero false (7 / 10) (1 / 4) = Except.ok zeroResult ∧
      zeroResult.fluency = 0 ∧ envZero.total = 0) :=
  ⟨⟨by simp, C10_scores_bounded.1 0 "SR" (by simp)⟩,
   C10_scores_bounded.2.1 0 0 0 0 0 0,
   by
    have hok : process_one envZero false (7 / 10) (1 / 4) = Except.ok zeroResult := by
      simp [process_one, envZero]
    exact ⟨hok, rfl, C10_scores_bounded.2.2 envZero false (7 / 10) (1 / 4) zeroResult hok rfl⟩⟩

/-- The merge loop never returns an empty list. -/
theorem mergeAux_ne_nil : ∀ (l : List (ℚ × ℚ)) (s e : ℚ), mergeAux s e l ≠ [] := by
  intro l
  induction l with
  | nil => intro s e; simp [mergeAux]
  | cons p rest ih =>
    intro s e
    obtain ⟨s2, e2⟩ := p
    by_cases hc : s2 - e < 3 / 20
    · simpa [mergeAux, hc] using ih s (max e e2)
    · simp [mergeAux, hc]

/-- The first interval emitted by the merge loop starts at the open
interval's start. -/
theorem mergeAux_head_start :
    ∀ (l : List (ℚ × ℚ)) (s e : ℚ), ∃ e' t, mergeAux s e l = (s, e') :: t := by
  intro l
  induction l with
  | nil => intro s e; exact ⟨e, [], rfl⟩
  | cons p rest ih =>
    intro s e
    obtain ⟨s2, e2⟩ := p
    by_cases hc : s2 - e < 3 / 20
    · obtain ⟨e', t, h⟩ := ih s (max e e2)
      exact ⟨e', t, by simpa [mergeAux, hc] using h⟩
    · exact ⟨e, mergeAux s2 e2 rest, by simp [mergeAux, hc]⟩

/-- Consecutive intervals in the merge loop's output are separated by at
least 0.15 s: a new interval is only opened when the incoming start clears
the previous end by the threshold, and the previous end is final from then
on. -/
theorem mergeAux_chain :
    ∀ (l : List (ℚ × ℚ)) (s e : ℚ),
      List.Chain' (fun a b : ℚ × ℚ => 3 / 20 ≤ b.1 - a.2) (mergeAux s e l) := by
  intro l
  induction l with
  | nil => intro s e; simp [mergeAux]
  | cons p rest ih =>
    intro s e
    obtain ⟨s2, e2⟩ := p
    by_cases hc : s2 - e < 3 / 20
    · simpa [mergeAux, hc] using ih s (max e e2)
    · rw [mergeAux, if_neg hc]
      rw [List.chain'_cons']
      refine ⟨?_, ih s2 e2⟩
      intro y hy
      obtain ⟨e', t, hm⟩ := mergeAux_head_start rest s2 e2
      rw [hm] at hy
      simp only [List.head?_cons, Option.mem_def, Option.some.injEq] at hy
      rw [← hy]
      simpa using le_of_not_lt hc

/-- The merge loop is the identity on a list already separated by ≥ 0.15 s
gaps. -/
theorem mergeAux_of_gapped :
    ∀ (l : List (ℚ × ℚ)) (s e : ℚ),
      List.Chain' (fun a b : ℚ × ℚ => 3 / 20 ≤ b.1 - a.2) ((s, e) :: l) →
      mergeAux s e l = (s, e) :: l := by
  intro l
  induction l with
  | nil => intro s e _; rfl
  | cons p rest ih =>
    intro s e hchain
    obtain ⟨s2, e2⟩ := p
    rw [List.chain'_cons] at hchain
    have hge : 3 / 20 ≤ s2 - e := hchain.1
    rw [mergeAux, if_neg (not_lt.mpr hge), ih s2 e2 hchain.2]

/-- Claim C4: the 150 ms gap-merge step is idempotent — on any list of
`(start, end)` intervals sorted by start, applying the merge pass to its own
output returns the same sequence.  (The proof uses only that the output of
one pass has all inter-interval gaps ≥ 0.15 s.) -/
theorem C4_merge_idempotent (l : List (ℚ × ℚ))
    (hsorted : List.Sorted (fun a b : ℚ × ℚ => a.1 ≤ b.1) l) :
    mergeSegs (mergeSegs l) = mergeSegs l := by
  cases l with
  | nil => rfl
  | cons p rest =>
    obtain ⟨s, e⟩ := p
    show mergeSegs (mergeAux s e rest) = mergeAux s e rest
    have hchain := mergeAux_chain rest s e
    obtain ⟨e', t, hm⟩ := mergeAux_head_start rest s e
    rw [hm]
    rw [hm] at hchain
    exact mergeAux_of_gapped t s e' hchain

/-- Witness for `C4_merge_idempotent` on a concrete sorted list (two
intervals that merge into one, plus a separated one). -/
theorem C4_merge_idempotent_witness :
    List.Sorted (fun a b : ℚ × ℚ => a.1 ≤ b.1) [(0, 1), (11 / 10, 2), (3, 4)] ∧
    mergeSegs (mergeSegs [(0, 1), (11 / 10, 2), (3, 4)]) =
      mergeSegs [(0, 1), (11 / 10, 2), (3, 4)] :=
  ⟨by norm_num [List.sorted_cons],
   C4_merge_idempotent [(0, 1), (11 / 10, 2), (3, 4)] (by norm_num [List.sorted_cons])⟩

/-- Claim C8 counterexample: with threshold `0` and two overlapping words,
every raw inter-word gap (start minus previous end, as the claim defines the
gap) is negative, so none is ≥ the threshold and the claim predicts
`mlfr = len(words) = 2`; but the source clamps the gap with `max(0.0, ·)`,
so the clamped gap `0 ≥ 0` splits the pair and `mlfr` returns `1`. -/
theorem C8_mlfr_counterexample :
    sortWords [wa8, wb8] = [wa8, wb8] ∧
    ¬ ((0 : ℚ) ≤ wb8.start - wa8.«end») ∧
    mlfr [wa8, wb8] 0 = 1 ∧
    (1 : ℚ) ≠ (([wa8, wb8] : List Word).length : ℚ) := by
  refine ⟨?_, by norm_num [wa8, wb8], ?_, by norm_num⟩ <;>
    norm_num [sortWords, List.insertionSort, List.orderedInsert, wa8, wb8,
      mlfr, mlfrRuns, natMean, max_def]

/-- The run loop collapses to a single run when no clamped gap reaches the
threshold. -/
theorem mlfrRuns_no_gap (thr : ℚ) :
    ∀ (l : List Word) (prev : Word) (run_len : ℕ),
      List.Chain' (fun a b : Word => max 0 (b.start - a.«end») < thr) (prev :: l) →
      mlfrRuns thr prev run_len l = [run_len + l.length] := by
  intro l
  induction l with
  | nil => intro prev run_len _; simp [mlfrRuns]
  | cons w rest ih =>
    intro prev run_len hchain
    rw [List.chain'_cons] at hchain
    rw [mlfrRuns, if_neg (not_le.mpr hchain.1), ih w (run_len + 1) hchain.2]
    simp only [List.length_cons]
    congr 1
    omega

/-- The run-length list produced by the source's loop is exactly the list of
lengths of the runs described by the amended claim (`runsSpec`), with the
pending run extended by the first block. -/
theorem mlfrRuns_eq_runsSpec (thr : ℚ) :
    ∀ (l : List Word) (prev : Word) (run_len : ℕ),
      mlfrRuns thr prev run_len l =
        (run_len + (takeRun thr prev l).1.length) ::
          ((runsSpec thr (takeRun thr prev l).2).map List.length) := by
  intro l
  induction l with
  | nil => intro prev run_len; simp [mlfrRuns, takeRun, runsSpec]
  | cons w rest ih =>
    intro prev run_len
    by_cases hgap : thr ≤ max 0 (w.start - prev.«end»)
    · rw [mlfrRuns, if_pos hgap]
      rw [ih w 1]
      simp only [takeRun, if_pos hgap]
      rw [runsSpec]
      simp only [List.map_cons, List.length_cons, List.length_nil, List.cons.injEq,
        and_true, true_and]
      omega
    · rw [mlfrRuns, if_neg hgap]
      rw [ih w (run_len + 1)]
      simp only [takeRun, if_neg hgap]
      simp only [List.length_cons, List.cons.injEq, and_true, true_and]
      omega

/-- Claim C8 as amended: `mlfr` returns 0 on the empty list; it returns
exactly `len(words)` when no *clamped* gap `max(0, start − prev.end)` in the
sorted list reaches the threshold; and in general it is the arithmetic mean
of the run lengths obtained by splitting the sorted list at clamped gaps
`≥ mlfr_pause_sec`. -/
theorem C8_mlfr_amended :
    (∀ thr : ℚ, mlfr [] thr = 0) ∧
    (∀ (words : List Word) (thr : ℚ), words ≠ [] →
      List.Chain' (fun a b : Word => max 0 (b.start - a.«end») < thr) (sortWords words) →
      mlfr words thr = (words.length : ℚ)) ∧
    (∀ (words : List Word) (thr : ℚ),
      mlfr words thr = natMean ((runsSpec thr (sortWords words)).map List.length)) := by
  refine ⟨fun thr => rfl, ?_, ?_⟩
  · intro words thr hne hchain
    have hlen : (sortWords words).length = words.length :=
      (List.perm_insertionSort _ words).length_eq
    cases hs : sortWords words with
    | nil =>
      exfalso
      rw [hs] at hlen
      exact hne (List.length_eq_zero.mp hlen.symm)
    | cons w rest =>
      rw [hs] at hchain hlen
      simp only [mlfr, hs]
      rw [mlfrRuns_no_gap thr rest w 1 hchain]
      have hmean : natMean [1 + rest.length] = ((1 + rest.length : ℕ) : ℚ) := by
        norm_num [natMean]
      rw [hmean, ← hlen]
      simp only [List.length_cons]
      push_cast
      ring
  · intro words thr
    cases hs : sortWords words with
    | nil =>
      simp only [mlfr, hs]
      simp [runsSpec, natMean]
    | cons w rest =>
      simp only [mlfr, hs]
      rw [mlfrRuns_eq_runsSpec thr rest w 1]
      rw [runsSpec]
      congr 1
      simp only [List.map_cons, List.length_cons, List.cons.injEq, and_true, true_and]
      omega

/-- Witness for `C8_mlfr_amended`: the three parts applied at concrete
inputs (default threshold 0.25; a two-word list with a 0.1 s gap; the
counterexample pair at threshold 0). -/
theorem C8_mlfr_amended_witness :
    mlfr [] (1 / 4) = 0 ∧
    (([⟨['a'], 0, 1⟩, ⟨['b'], 11 / 10, 2⟩] : List Word) ≠ [] ∧
      List.Chain' (fun a b : Word => max 0 (b.start - a.«end») < 1 / 4)
        (sortWords [⟨['a'], 0, 1⟩, ⟨['b'], 11 / 10, 2⟩]) ∧
      mlfr [⟨['a'], 0, 1⟩, ⟨['b'], 11 / 10, 2⟩] (1 / 4) = 2) ∧
    mlfr [wa8, wb8] 0 = natMean ((runsSpec 0 (sortWords [wa8, wb8])).map List.length) := by
  have hchain : List.Chain' (fun a b : Word => max 0 (b.start - a.«end») < 1 / 4)
      (sortWords [⟨['a'], 0, 1⟩, ⟨['b'], 11 / 10, 2⟩]) := by
    norm_num [sortWords, List.insertionSort, List.orderedInsert, List.chain'_cons, max_def]
  refine ⟨C8_mlfr_amended.1 (1 / 4), ⟨by simp, hchain, ?_⟩, C8_mlfr_amended.2.2 [wa8, wb8] 0⟩
  have := C8_mlfr_amended.2.1 [⟨['a'], 0, 1⟩, ⟨['b'], 11 / 10, 2⟩] (1 / 4) (by simp) hchain
  simpa using this

/-- Claim C7 counterexample: on `exC7` the claimed exact-overlap counting
gives window rates `[12, 12, 12]` (variance 0), but the source's cursor scan
misses the word `(6, 7)` in window `[5, 10)` — its cursor has already passed
the stopping word `(10, 11)` — giving rates `[12, 0, 12]` (variance 48).
The reported standard deviations differ since their squares do. -/
theorem C7_rate_stability_counterexample :
    rate_stability_sq exC7 = 48 ∧ rate_stability_claimed_sq exC7 = 0 ∧ (48 : ℚ) ≠ 0 := by
  have hc1 : (⌈(16 : ℚ) / 5⌉ : ℤ) = 4 := by
    rw [Int.ceil_eq_iff] <;> norm_num
  have hc2 : (⌈(11 : ℚ) / 5⌉ : ℤ) = 3 := by
    rw [Int.ceil_eq_iff] <;> norm_num
  have h1 : numWindows 0 11 = 3 := by
    rw [numWindows]
    norm_num [hc1]
    rfl
  have h2 : numWindowsSpec 0 11 = 3 := by
    rw [numWindowsSpec]
    norm_num [hc2]
    rfl
  refine ⟨?_, ?_, by norm_num⟩
  · simp only [rate_stability_sq, exC7]
    norm_num [maxEnd, max_def, h1, winRates, winCount, List.drop, sampleVarQ]
  · simp only [rate_stability_claimed_sq, exC7]
    norm_num [maxEnd, max_def, h2, idealRates, List.range, List.range.loop,
      List.filter, sampleVarQ]

/-- The window loop produces one rate per window. -/
theorem winRates_length (words : List Word) (t0 : ℚ) :
    ∀ (n b wi : ℕ), (winRates words t0 n b wi).length = n := by
  intro n
  induction n with
  | zero => intro b wi; rfl
  | succ m ih =>
    intro b wi
    rw [winRates]
    simp only [List.length_cons, ih]

/-- The window loop started at the cursor position of window `b` produces
exactly the amended claim's per-window cursor rates for windows
`b, b+1, …, b+n-1`. -/
theorem winRates_eq_cursor (words : List Word) (t0 : ℚ) :
    ∀ (n b : ℕ),
      winRates words t0 n b (cursorAt words t0 b) =
        (List.range' b n).map (fun b' : ℕ =>
          12 * (((winCount (t0 + 5 * (b' : ℚ)) (t0 + 5 * ((b' : ℚ) + 1))
            (words.drop (cursorAt words t0 b'))).1 : ℚ))) := by
  intro n
  induction n with
  | zero => intro b; rfl
  | succ m ih =>
    intro b
    rw [winRates, List.range'_succ, List.map_cons]
    congr 1
    have hcur : (cursorAt words t0 b +
        (winCount (t0 + 5 * (b : ℚ)) (t0 + 5 * ((b : ℚ) + 1))
          (words.drop (cursorAt words t0 b))).2) - 5 = cursorAt words t0 (b + 1) := by
      rw [cursorAt]
    rw [hcur]
    exact ih (b + 1)

/-- The source's window-loop rates coincide with the amended claim's cursor
rates. -/
theorem winRates_eq_cursorRates (words : List Word) (t0 : ℚ) (n : ℕ) :
    winRates words t0 n 0 0 = cursorRates words t0 n := by
  have h0 : cursorAt words t0 0 = 0 := rfl
  have h := winRates_eq_cursor words t0 n 0
  rw [h0] at h
  rw [cursorRates, List.range_eq_range']
  exact h

/-- The number of `np.arange` windows equals the number of 5-second windows
partitioning the span (`⌈(d+5)/5⌉ - 1 = ⌈d/5⌉`). -/
theorem numWindows_eq_spec (t0 t1 : ℚ) : numWindows t0 t1 = numWindowsSpec t0 t1 := by
  rw [numWindows, numWindowsSpec]
  have h : (t1 + 5 - t0) / 5 = (t1 - t0) / 5 + 1 := by ring
  rw [h, Int.ceil_add_one, add_sub_cancel_right]

/-- Claim C7 as amended: `rate_stability` (represented by its square) bins
the span from the first word's start to the maximum word end into fixed
5-second windows; each window's count is produced by a forward cursor scan
in list order (the cursor resuming 5 positions before the previous window's
stopping point, counting scanned words with `start` before the window's end
and `end` after its start) — an approximation of exact overlap counting;
rates are counts converted to words per minute, the result is their
Bessel-corrected sample variance, and it is `0` when the span is shorter
than 5 s or there are fewer than two rate samples. -/
theorem C7_rate_stability_amended (words : List Word) (w0 : Word) (rest : List Word)
    (hw : words = w0 :: rest) :
    (maxEnd words - w0.start < 5 → rate_stability_sq words = 0) ∧
    (¬ (maxEnd words - w0.start < 5) →
      rate_stability_sq words =
        if 2 ≤ numWindowsSpec w0.start (maxEnd words) then
          sampleVarQ (cursorRates words w0.start (numWindowsSpec w0.start (maxEnd words)))
        else 0) := by
  subst hw
  constructor
  · intro h
    simp only [rate_stability_sq]
    rw [if_pos h]
  · intro h
    simp only [rate_stability_sq]
    rw [if_neg h]
    rw [winRates_length (w0 :: rest) w0.start (numWindows w0.start (maxEnd (w0 :: rest))) 0 0]
    rw [numWindows_eq_spec, winRates_eq_cursorRates]

/-- Witness for `C7_rate_stability_amended` at the two-word list `exW2`
(span 7 s, two windows). -/
theorem C7_rate_stability_amended_witness :
    ¬ (maxEnd exW2 - (⟨['a'], 0, 1⟩ : Word).start < 5) ∧
    rate_stability_sq exW2 =
      if 2 ≤ numWindowsSpec (⟨['a'], 0, 1⟩ : Word).start (maxEnd exW2) then
        sampleVarQ (cursorRates exW2 (⟨['a'], 0, 1⟩ : Word).start
          (numWindowsSpec (⟨['a'], 0, 1⟩ : Word).start (maxEnd exW2)))
      else 0 := by
  have hspan : ¬ (maxEnd exW2 - (⟨['a'], 0, 1⟩ : Word).start < 5) := by
    norm_num [exW2, maxEnd, max_def]
  exact ⟨hspan,
    (C7_rate_stability_amended exW2 ⟨['a'], 0, 1⟩ [⟨['b'], 6, 7⟩] rfl).2 hspan⟩

/-- `weave` keeps the first segment in front. -/
theorem weave_cons (a : ℚ × ℚ) (l : List (ℚ × ℚ)) :
    ∃ t, weave (a :: l) = a :: t := by
  obtain ⟨s1, e1⟩ := a
  cases l with
  | nil => exact ⟨[], rfl⟩
  | cons b rest =>
    obtain ⟨s2, e2⟩ := b
    exact ⟨_, rfl⟩

/-- The last element of a nonempty segment list ends at `lastEnd`, and is a
member of the list. -/
theorem lastEnd_getLast? :
    ∀ (l : List (ℚ × ℚ)), l ≠ [] →
      ∃ sl, l.getLast? = some (sl, lastEnd l) ∧ (sl, lastEnd l) ∈ l := by
  intro l
  induction l with
  | nil => intro h; exact absurd rfl h
  | cons a rest ih =>
    intro _
    cases rest with
    | nil =>
      obtain ⟨s, e⟩ := a
      exact ⟨s, rfl, by simp [lastEnd]⟩
    | cons b rest' =>
      obtain ⟨sl, h1, h2⟩ := ih (by simp)
      obtain ⟨s, e⟩ := a
      obtain ⟨s2, e2⟩ := b
      refine ⟨sl, ?_, ?_⟩
      · rw [List.getLast?_cons_cons, h1, lastEnd]
      · rw [lastEnd]
        exact List.mem_cons_of_mem _ h2

/-- The ordered interleaving is a permutation of the segments together with
the inner gaps. -/
theorem weave_perm : ∀ l : List (ℚ × ℚ), (weave l).Perm (l ++ betweenGaps l) := by
  intro l
  induction l with
  | nil => simp [weave, betweenGaps]
  | cons a rest ih =>
    cases rest with
    | nil =>
      obtain ⟨s1, e1⟩ := a
      simp [weave, betweenGaps]
    | cons b rest' =>
      obtain ⟨s1, e1⟩ := a
      obtain ⟨s2, e2⟩ := b
      show ((s1, e1) :: ((if e1 < s2 then [(e1, s2)] else []) ++ weave ((s2, e2) :: rest'))).Perm
        (((s1, e1) :: (s2, e2) :: rest') ++
          ((if e1 < s2 then [(e1, s2)] else []) ++ betweenGaps ((s2, e2) :: rest')))
      refine List.Perm.cons _ ?_
      have key : ∀ G B D : List (ℚ × ℚ), (G ++ (B ++ D)).Perm (B ++ (G ++ D)) := by
        intro G B D
        rw [← List.append_assoc, ← List.append_assoc]
        exact List.Perm.append_right D List.perm_append_comm
      exact (List.Perm.append_left _ ih).trans (key _ _ _)

/-- `weave` does not change the last element. -/
theorem weave_getLast? : ∀ l : List (ℚ × ℚ), (weave l).getLast? = l.getLast? := by
  intro l
  induction l with
  | nil => rfl
  | cons a rest ih =>
    cases rest with
    | nil => rfl
    | cons b rest' =>
      obtain ⟨s1, e1⟩ := a
      obtain ⟨s2, e2⟩ := b
      obtain ⟨t, ht⟩ := weave_cons (s2, e2) rest'
      show ((s1, e1) :: ((if e1 < s2 then [(e1, s2)] else []) ++ weave ((s2, e2) :: rest'))).getLast? = _
      rw [ht]
      have hsplit : ((s1, e1) :: ((if e1 < s2 then [(e1, s2)] else []) ++ ((s2, e2) :: t)))
          = (((s1, e1) :: (if e1 < s2 then [(e1, s2)] else [])) ++ ((s2, e2) :: t)) := by
        simp
      rw [hsplit]
      rw [List.getLast?_append]
      rw [← ht, ih, List.getLast?_cons_cons]
      cases h : ((s2, e2) :: rest').getLast? with
      | none => exact absurd (List.getLast?_eq_none_iff.mp h) (by simp)
      | some x => simp [Option.or]

/-- The partition chain of the interleaving: consecutive intervals meet
exactly (`a.2 = b.1`) and are ordered by start, given valid, separated
segments. -/
theorem weave_chain :
    ∀ l : List (ℚ × ℚ),
      List.Chain' (fun a b : ℚ × ℚ => a.2 ≤ b.1) l →
      (∀ p ∈ l, p.1 ≤ p.2) →
      List.Chain' (fun a b : ℚ × ℚ => a.2 = b.1 ∧ a.1 ≤ b.1) (weave l) := by
  intro l
  induction l with
  | nil => intro _ _; simp [weave]
  | cons a rest ih =>
    cases rest with
    | nil => intro _ _; exact List.chain'_singleton _
    | cons b rest' =>
      intro hsep hval
      obtain ⟨s1, e1⟩ := a
      obtain ⟨s2, e2⟩ := b
      rw [List.chain'_cons] at hsep
      have h12 : e1 ≤ s2 := hsep.1
      have hv1 : s1 ≤ e1 := (hval (s1, e1) (by simp)).trans_eq rfl
      have hrest : ∀ p ∈ (s2, e2) :: rest', p.1 ≤ p.2 := by
        intro p hp
        exact hval p (List.mem_cons_of_mem _ hp)
      have hw := ih hsep.2 hrest
      obtain ⟨t, ht⟩ := weave_cons (s2, e2) rest'
      by_cases hg : e1 < s2
      · show List.Chain' _ ((s1, e1) :: ((if e1 < s2 then [(e1, s2)] else []) ++ weave ((s2, e2) :: rest')))
        rw [if_pos hg, List.singleton_append, ht, List.chain'_cons, List.chain'_cons]
        rw [ht] at hw
        exact ⟨⟨rfl, hv1⟩, ⟨rfl, le_of_lt hg⟩, hw⟩
      · have heq : e1 = s2 := le_antisymm h12 (not_lt.mp hg)
        show List.Chain' _ ((s1, e1) :: ((if e1 < s2 then [(e1, s2)] else []) ++ weave ((s2, e2) :: rest')))
        rw [if_neg hg, List.nil_append, ht, List.chain'_cons]
        rw [ht] at hw
        exact ⟨⟨heq, hv1.trans_eq heq⟩, hw⟩

/-- Claim C5: for `T > 0` and a sorted, non-overlapping speech list inside
`[0, T]`, the union of `silences_from_speech(speech, T)` with the speech
list, ordered by start (`orderedUnion`), reconstructs `[0, T]` exactly: it
is a permutation of speech ++ silences, consecutive intervals meet with no
gap and no overlap (`a.2 = b.1`), it is ordered by start, the first interval
starts at `0` and the last ends at `T`; for an empty speech list the silence
list is the single interval `(0, T)`. -/
theorem C5_silence_partition (segs : List (ℚ × ℚ)) (total : ℚ)
    (htotal : 0 < total)
    (hvalid : ∀ p ∈ segs, 0 ≤ p.1 ∧ p.1 ≤ p.2 ∧ p.2 ≤ total)
    (hsep : List.Chain' (fun a b : ℚ × ℚ => a.2 ≤ b.1) segs) :
    silences_from_speech [] total = [((0 : ℚ), total)] ∧
    (orderedUnion segs total).Perm (segs ++ silences_from_speech segs total) ∧
    List.Chain' (fun a b : ℚ × ℚ => a.2 = b.1) (orderedUnion segs total) ∧
    List.Chain' (fun a b : ℚ × ℚ => a.1 ≤ b.1) (orderedUnion segs total) ∧
    (orderedUnion segs total).head?.map Prod.fst = some 0 ∧
    (orderedUnion segs total).getLast?.map Prod.snd = some total := by
  cases segs with
  | nil =>
    exact ⟨rfl, by simp [orderedUnion, silences_from_speech],
      List.chain'_singleton _, List.chain'_singleton _, rfl, rfl⟩
  | cons a rest =>
    obtain ⟨s0, e0⟩ := a
    obtain ⟨sl, hgl, hmem⟩ := lastEnd_getLast? ((s0, e0) :: rest) (by simp)
    have hvl := hvalid _ hmem
    have hv0 := hvalid (s0, e0) (by simp)
    have hwchain := weave_chain ((s0, e0) :: rest) hsep (fun p hp => (hvalid p hp).2.1)
    obtain ⟨t, ht⟩ := weave_cons (s0, e0) rest
    have hwlast : (weave ((s0, e0) :: rest)).getLast? =
        some (sl, lastEnd ((s0, e0) :: rest)) := by
      rw [weave_getLast?, hgl]
    have hwhead : (weave ((s0, e0) :: rest)).head? = some (s0, e0) := by rw [ht]; rfl
    have hOU : orderedUnion ((s0, e0) :: rest) total =
        ((if 0 < s0 then [((0 : ℚ), s0)] else []) ++ weave ((s0, e0) :: rest)) ++
          (if lastEnd ((s0, e0) :: rest) < total
            then [(lastEnd ((s0, e0) :: rest), total)] else []) := rfl
    have hSil : silences_from_speech ((s0, e0) :: rest) total =
        ((if 0 < s0 then [((0 : ℚ), s0)] else []) ++ betweenGaps ((s0, e0) :: rest)) ++
          (if lastEnd ((s0, e0) :: rest) < total
            then [(lastEnd ((s0, e0) :: rest), total)] else []) := rfl
    have hchainAll : List.Chain' (fun a b : ℚ × ℚ => a.2 = b.1 ∧ a.1 ≤ b.1)
        (orderedUnion ((s0, e0) :: rest) total) := by
      rw [hOU, List.chain'_append]
      refine ⟨?_, ?_, ?_⟩
      · rw [List.chain'_append]
        refine ⟨?_, hwchain, ?_⟩
        · split_ifs <;> simp [List.chain'_singleton]
        · intro x hx y hy
          by_cases hL : 0 < s0
          · rw [if_pos hL] at hx
            simp only [List.getLast?_singleton, Option.mem_def, Option.some.injEq] at hx
            rw [hwhead] at hy
            simp only [Option.mem_def, Option.some.injEq] at hy
            subst hx
            subst hy
            exact ⟨rfl, hv0.1⟩
          · rw [if_neg hL] at hx
            simp at hx
      · split_ifs <;> simp [List.chain'_singleton]
      · intro x hx y hy
        rw [List.getLast?_append, hwlast] at hx
        simp only [Option.or_some, Option.mem_def, Option.some.injEq] at hx
        by_cases hT : lastEnd ((s0, e0) :: rest) < total
        · rw [if_pos hT] at hy
          simp only [List.head?_cons, Option.mem_def, Option.some.injEq] at hy
          subst hx
          subst hy
          exact ⟨rfl, hvl.2.1⟩
        · rw [if_neg hT] at hy
          simp at hy
    refine ⟨rfl, ?_, ?_, ?_, ?_, ?_⟩
    · rw [hOU, hSil]
      have key : ∀ L B G T : List (ℚ × ℚ), ((L ++ (B ++ G)) ++ T).Perm (B ++ ((L ++ G) ++ T)) := by
        intro L B G T
        simp only [← List.append_assoc]
        exact (List.perm_append_comm.append_right _).append_right _
      exact (((weave_perm ((s0, e0) :: rest)).append_left _).append_right _).trans
        (key _ _ _ _)
    · exact hchainAll.imp (fun a b h => h.1)
    · exact hchainAll.imp (fun a b h => h.2)
    · rw [hOU, List.head?_append, List.head?_append]
      by_cases hL : 0 < s0
      · rw [if_pos hL]
        rfl
      · have hs0 : s0 = 0 := le_antisymm (not_lt.mp hL) hv0.1
        rw [if_neg hL, hwhead]
        simp [hs0]
    · rw [hOU, List.getLast?_append]
      by_cases hT : lastEnd ((s0, e0) :: rest) < total
      · rw [if_pos hT]
        rfl
      · have hl : lastEnd ((s0, e0) :: rest) = total := le_antisymm hvl.2.2 (not_lt.mp hT)
        rw [if_neg hT, List.getLast?_append, hwlast]
        simp [hl]

/-- Witness for `C5_silence_partition` on a concrete speech list inside
`[0, 5]`. -/
theorem C5_silence_partition_witness :
    ((0 : ℚ) < 5 ∧ (∀ p ∈ ([(1, 2), (3, 4)] : List (ℚ × ℚ)), 0 ≤ p.1 ∧ p.1 ≤ p.2 ∧ p.2 ≤ 5) ∧
      List.Chain' (fun a b : ℚ × ℚ => a.2 ≤ b.1) [(1, 2), (3, 4)]) ∧
    (silences_from_speech [] 5 = [((0 : ℚ), (5 : ℚ))] ∧
      (orderedUnion [(1, 2), (3, 4)] 5).Perm
        ([(1, 2), (3, 4)] ++ silences_from_speech [(1, 2), (3, 4)] 5) ∧
      List.Chain' (fun a b : ℚ × ℚ => a.2 = b.1) (orderedUnion [(1, 2), (3, 4)] 5) ∧
      List.Chain' (fun a b : ℚ × ℚ => a.1 ≤ b.1) (orderedUnion [(1, 2), (3, 4)] 5) ∧
      (orderedUnion [(1, 2), (3, 4)] 5).head?.map Prod.fst = some 0 ∧
      (orderedUnion [(1, 2), (3, 4)] 5).getLast?.map Prod.snd = some 5) :=
  ⟨⟨by norm_num, by norm_num, by norm_num [List.chain'_cons]⟩,
   C5_silence_partition [(1, 2), (3, 4)] 5 (by norm_num) (by norm_num)
     (by norm_num [List.chain'_cons])⟩
